import Mathlib

/-!
Verification of the SVG import service (`SVG-import.js`).

The embedding translates the security-relevant functions of the source into
executable Lean definitions over `List Char` / `String`:

* the regex-based sanitizer `sanitizeSvg` (each JavaScript regular expression
  is hand-compiled into a deterministic matcher that reproduces the
  backtracking behaviour of the original pattern, and global replacement by
  the empty string is `scanReplace`);
* the address classifier `isPrivateIp` together with a model of Node's
  `net.isIP`;
* the `/import.url` pipeline `importFromUrl`, parameterised by oracles for
  URL parsing, DNS resolution and the network fetch, returning a trace that
  records whether the fetch was attempted and which files were written;
* the read routes `serveRaw` (`/uploads/:name`) and `servePreview`
  (`/view/:name`), returning traces that record every filesystem call.
-/

set_option maxRecDepth 4096

namespace SvgImport

/-! ## Character classes

`isWsChar` is JavaScript's `\s` (WhiteSpace plus LineTerminator),
`isWordChar` is `\w` (ASCII only), and `ciEqChar` is the case-insensitive
character comparison used by the `i` regex flag (ASCII simple folding, which
is all that the patterns of the source need). -/

def isWsChar (c : Char) : Bool :=
  c = (' ') || c = ('\t') || c = ('\n') || c = ('\x0b') || c = ('\x0c') || c = ('\r') ||
  c.toNat = 0xA0 || c.toNat = 0x1680 || (0x2000 ≤ c.toNat && c.toNat ≤ 0x200A) ||
  c.toNat = 0x2028 || c.toNat = 0x2029 || c.toNat = 0x202F || c.toNat = 0x205F ||
  c.toNat = 0x3000 || c.toNat = 0xFEFF

def isWordChar (c : Char) : Bool :=
  (('a') ≤ c && c ≤ ('z')) || (('A') ≤ c && c ≤ ('Z')) ||
  (('0') ≤ c && c ≤ ('9')) || c = ('_')

def lowerAscii (c : Char) : Char :=
  if 65 ≤ c.toNat && c.toNat ≤ 90 then Char.ofNat (c.toNat + 32) else c

def ciEqChar (p c : Char) : Bool :=
  lowerAscii p = lowerAscii c

/-! ## Generic list helpers -/

/-- `listStartsWith p s` holds when `p` is an exact (case-sensitive) prefix of `s`. -/
def listStartsWith : List Char → List Char → Bool
  | [], _ => true
  | _ :: _, [] => false
  | p :: ps, c :: cs => p = c && listStartsWith ps cs

/-- `containsSub n h` holds when `n` occurs as a contiguous substring of `h`. -/
def containsSub (n : List Char) : List Char → Bool
  | [] => listStartsWith n []
  | c :: cs => listStartsWith n (c :: cs) || containsSub n cs

/-- Split a character list on a separator character (like `String.split` on one char). -/
def splitOnChar (sep : Char) : List Char → List (List Char)
  | [] => [[]]
  | c :: cs =>
    match splitOnChar sep cs with
    | [] => if c = sep then [[], []] else [[c]]
    | g :: gs => if c = sep then [] :: g :: gs else (c :: g) :: gs

/-- Trim JavaScript whitespace from both ends (model of `String.prototype.trim`). -/
def jsTrimL (l : List Char) : List Char :=
  ((l.dropWhile isWsChar).reverse.dropWhile isWsChar).reverse

def jsTrimS (s : String) : String :=
  List.asString (jsTrimL s.toList)

/-! ## Matcher combinators

Each matcher takes the input at the candidate match position and returns
`some rest` (the input after the matched portion) or `none`.  The fixed
regular expressions of the source are compiled into compositions of these
combinators; where the original pattern backtracks, the composition below is
proved deterministic in the comments accompanying each pattern. -/

/-- Match a literal case-insensitively (regex `i` flag); returns the rest. -/
def litCI : List Char → List Char → Option (List Char)
  | [], s => some s
  | _ :: _, [] => none
  | p :: ps, c :: cs => if ciEqChar p c then litCI ps cs else none

/-- `\s*` with maximal munch (the patterns below always follow it by a
non-whitespace requirement, so greedy matching with no backtracking is exact). -/
def skipWs (s : List Char) : List Char := s.dropWhile isWsChar

/-- `\b` placed after a word character: succeeds iff the next input character
is not a word character (or the input ended); consumes nothing. -/
def boundaryAfterWord : List Char → Option (List Char)
  | [] => some []
  | c :: cs => if isWordChar c then none else some (c :: cs)

/-- `[^q]*q`: consume up to and including the first occurrence of `q`
(the character class cannot cross `q`, so greedy matching is deterministic). -/
def upToChar (q : Char) : List Char → Option (List Char)
  | [] => none
  | c :: cs => if c = q then some cs else upToChar q cs

/-- `\w+` with maximal munch (always followed by `\s*=` below, and a shorter
word run would put a word character where `=` is required, so no backtracking). -/
def wordRun1 : List Char → Option (List Char)
  | [] => none
  | c :: cs => if isWordChar c then some (cs.dropWhile isWordChar) else none

/-- `\s*=`: skip whitespace, then require a literal `=`. -/
def eqSign (s : List Char) : Option (List Char) :=
  match skipWs s with
  | c :: r => if c = ('=') then some r else none
  | [] => none

/-- `<\/tag\s*>` (closing tag with optional whitespace before `>`),
case-insensitive. -/
def closeTag (tag : List Char) (s : List Char) : Option (List Char) :=
  match litCI (('<') :: ('/') :: tag) s with
  | some r =>
    match skipWs r with
    | c :: r2 => if c = ('>') then some r2 else none
    | [] => none
  | none => none

/-- `[\s\S]*?` followed by `closer`: lazy matching tries the closer at every
position from the current one onwards and commits to the first success. -/
def lazyFind (closer : List Char → Option (List Char)) : List Char → Option (List Char)
  | [] => closer []
  | c :: cs =>
    match closer (c :: cs) with
    | some r => some r
    | none => lazyFind closer cs

/-! ## The five removal patterns and the three test patterns of the source -/

def scriptLit : List Char := ('<') :: ('s') :: ('c') :: ('r') :: ('i') :: ('p') :: ('t') :: []

def scriptName : List Char := ('s') :: ('c') :: ('r') :: ('i') :: ('p') :: ('t') :: []

/-- `/<script\b[^>]*>[\s\S]*?<\/script\s*>/gi` (line 54 of the source). -/
def scriptP (s : List Char) : Option (List Char) :=
  match litCI scriptLit s with
  | some r1 =>
    match boundaryAfterWord r1 with
    | some r2 =>
      match upToChar ('>') r2 with
      | some r3 => lazyFind (closeTag scriptName) r3
      | none => none
    | none => none
  | none => none

/-- Value alternation `(?:"[^"]*"|'[^']*'|[^\s>]+)` — a quoted alternative
fails when its closing quote is missing, in which case the bare alternative
can still match starting at the quote character, exactly as in the source
pattern. -/
def isBareValChar (c : Char) : Bool := !isWsChar c && c ≠ ('>')

def quotedP (q : Char) : List Char → Option (List Char)
  | [] => none
  | c :: cs => if c = q then upToChar q cs else none

def bareValueP : List Char → Option (List Char)
  | [] => none
  | c :: cs => if isBareValChar c then some (cs.dropWhile isBareValChar) else none

def attrValueP (s : List Char) : Option (List Char) :=
  match quotedP ('"') (skipWs s) with
  | some r => some r
  | none =>
    match quotedP ('\x27') (skipWs s) with
    | some r => some r
    | none => bareValueP (skipWs s)

def onLit : List Char := ('o') :: ('n') :: []

/-- `/\son\w+\s*=\s*(?:"[^"]*"|'[^']*'|[^\s>]+)/gi` (line 57 of the source). -/
def onAttrP : List Char → Option (List Char)
  | [] => none
  | c :: cs =>
    if isWsChar c then
      match litCI onLit cs with
      | some r1 =>
        match wordRun1 r1 with
        | some r2 =>
          match eqSign r2 with
          | some r3 => attrValueP r3
          | none => none
        | none => none
      | none => none
    else none

def hrefLit : List Char := ('h') :: ('r') :: ('e') :: ('f') :: []

def xlinkHrefLit : List Char :=
  ('x') :: ('l') :: ('i') :: ('n') :: ('k') :: (':') :: ('h') :: ('r') :: ('e') :: ('f') :: []

def javascriptLit : List Char :=
  ('j') :: ('a') :: ('v') :: ('a') :: ('s') :: ('c') :: ('r') :: ('i') :: ('p') :: ('t') :: (':') :: []

def jsQuotedP (q : Char) : List Char → Option (List Char)
  | [] => none
  | c :: cs =>
    if c = q then
      match litCI javascriptLit cs with
      | some r => upToChar q r
      | none => none
    else none

def jsBareP (s : List Char) : Option (List Char) :=
  match litCI javascriptLit s with
  | some r => bareValueP r
  | none => none

def jsValueP (s : List Char) : Option (List Char) :=
  match jsQuotedP ('"') (skipWs s) with
  | some r => some r
  | none =>
    match jsQuotedP ('\x27') (skipWs s) with
    | some r => some r
    | none => jsBareP (skipWs s)

/-- `/(href|xlink:href)\s*=\s*(?:"javascript:[^"]*"|'javascript:[^']*'|javascript:[^\s>]+)/gi`
(line 60 of the source).  The two group alternatives start with distinct
characters, so trying them in the source's order with commitment is exact. -/
def jsHrefP (s : List Char) : Option (List Char) :=
  match (match litCI hrefLit s with
         | some r => some r
         | none => litCI xlinkHrefLit s) with
  | some r1 =>
    match eqSign r1 with
    | some r2 => jsValueP r2
    | none => none
  | none => none

def iframeLit : List Char := ('i') :: ('f') :: ('r') :: ('a') :: ('m') :: ('e') :: []

def objectLit : List Char := ('o') :: ('b') :: ('j') :: ('e') :: ('c') :: ('t') :: []

def embedLit : List Char := ('e') :: ('m') :: ('b') :: ('e') :: ('d') :: []

def foreignObjectLit : List Char :=
  ('f') :: ('o') :: ('r') :: ('e') :: ('i') :: ('g') :: ('n') :: ('O') :: ('b') ::
  ('j') :: ('e') :: ('c') :: ('t') :: []

/-- One alternative of the container pattern: `tag\b[^>]*>[\s\S]*?<\/tag\s*>`
where the closing tag is the back-reference `\1` (compared case-insensitively
under the `i` flag). -/
def frameTagP (tag : List Char) (s : List Char) : Option (List Char) :=
  match litCI tag s with
  | some r1 =>
    match boundaryAfterWord r1 with
    | some r2 =>
      match upToChar ('>') r2 with
      | some r3 => lazyFind (closeTag tag) r3
      | none => none
    | none => none
  | none => none

/-- `/<(iframe|object|embed|foreignObject)\b[^>]*>[\s\S]*?<\/\1\s*>/gi`
(line 63 of the source).  The four tag names start with pairwise distinct
letters, so ordered alternation with commitment is exact. -/
def frameP : List Char → Option (List Char)
  | c :: cs =>
    if c = ('<') then
      match frameTagP iframeLit cs with
      | some r => some r
      | none =>
        match frameTagP objectLit cs with
        | some r => some r
        | none =>
          match frameTagP embedLit cs with
          | some r => some r
          | none => frameTagP foreignObjectLit cs
    else none
  | [] => none

def httpLit : List Char := ('h') :: ('t') :: ('t') :: ('p') :: []

def slashesLit : List Char := (':') :: ('/') :: ('/') :: []

def sLit : List Char := ('s') :: []

/-- `"https?:\/\/[^"]*"` (or with single quotes): the `s?` is greedy with
backtracking — try with the `s`, on failure retry without it. -/
def httpUrlQuotedP (q : Char) : List Char → Option (List Char)
  | [] => none
  | c :: cs =>
    if c = q then
      match litCI httpLit cs with
      | some r =>
        match (match litCI sLit r with
               | some r1 =>
                 match litCI slashesLit r1 with
                 | some r2 => some r2
                 | none => litCI slashesLit r
               | none => litCI slashesLit r) with
        | some r3 => upToChar q r3
        | none => none
      | none => none
    else none

def extValueP (s : List Char) : Option (List Char) :=
  match httpUrlQuotedP ('"') (skipWs s) with
  | some r => some r
  | none => httpUrlQuotedP ('\x27') (skipWs s)

/-- `/(xlink:href|href)\s*=\s*(?:"https?:\/\/[^"]*"|'https?:\/\/[^']*')/gi`
(line 67 of the source).  Note: unlike the `javascript:` pattern, the value
must be double- or single-quoted — there is no bare alternative. -/
def extHrefP (s : List Char) : Option (List Char) :=
  match (match litCI xlinkHrefLit s with
         | some r => some r
         | none => litCI hrefLit s) with
  | some r1 =>
    match eqSign r1 with
    | some r2 => extValueP r2
    | none => none
  | none => none

def bangLit : List Char := ('<') :: ('!') :: []

def doctypeLit : List Char :=
  ('D') :: ('O') :: ('C') :: ('T') :: ('Y') :: ('P') :: ('E') :: []

/-- `/<!\s*DOCTYPE/i` (line 49 of the source). -/
def doctypeP (s : List Char) : Option (List Char) :=
  match litCI bangLit s with
  | some r => litCI doctypeLit (skipWs r)
  | none => none

def entityLit : List Char :=
  ('<') :: ('!') :: ('E') :: ('N') :: ('T') :: ('I') :: ('T') :: ('Y') :: []

/-- `/<!ENTITY/i` (line 49 of the source). -/
def entityP (s : List Char) : Option (List Char) :=
  litCI entityLit s

def svgLit : List Char := ('<') :: ('s') :: ('v') :: ('g') :: []

/-- `/<svg\b[^>]*>/i` — the final acceptance gate of the route (line 144). -/
def svgTagP (s : List Char) : Option (List Char) :=
  match litCI svgLit s with
  | some r1 =>
    match boundaryAfterWord r1 with
    | some r2 => upToChar ('>') r2
    | none => none
  | none => none

/-! ## Global matching and replacement -/

/-- `RegExp.prototype.test`: does the pattern match at some position? -/
def existsMatch (p : List Char → Option (List Char)) : List Char → Bool
  | [] => (p []).isSome
  | c :: cs => (p (c :: cs)).isSome || existsMatch p cs

/-- `String.prototype.replace` with a `g` flag and the empty replacement:
scan left to right; at a match, delete the matched portion and resume right
after it.  Fuelled so the definition is structural (the fuel never runs out
when it starts at the input length, since every match consumes at least one
character). -/
def scanReplaceF (p : List Char → Option (List Char)) : Nat → List Char → List Char
  | 0, s => s
  | _ + 1, [] => []
  | f + 1, c :: cs =>
    match p (c :: cs) with
    | some rest =>
      if rest.length < cs.length + 1 then scanReplaceF p f rest
      else c :: scanReplaceF p f cs
    | none => c :: scanReplaceF p f cs

def scanReplace (p : List Char → Option (List Char)) (s : List Char) : List Char :=
  scanReplaceF p s.length s

/-! ## The sanitizer (`sanitizeSvg`, lines 47–70 of the source)

The source throws on DOCTYPE/ENTITY; the embedding returns `none` for the
thrown case and `some cleaned` otherwise. -/

def testDoctype (s : List Char) : Bool := existsMatch doctypeP s

def testEntity (s : List Char) : Bool := existsMatch entityP s

def testSvgTag (s : List Char) : Bool := existsMatch svgTagP s

def sanitizeList (s : List Char) : Option (List Char) :=
  if testDoctype s || testEntity s then none
  else
    some (scanReplace extHrefP
           (scanReplace frameP
             (scanReplace jsHrefP
               (scanReplace onAttrP
                 (scanReplace scriptP s)))))

def sanitizeSvg (s : String) : Option String :=
  (sanitizeList s.toList).map List.asString

/-! ## Address classification

`net.isIP` is Node standard-library code (an external collaborator, not part
of this repository): we model its syntax check — dotted-quad IPv4 with no
leading zeros and values ≤ 255, RFC-4291 IPv6 with at most one `::`, 1–4
hex-digit groups and an optional trailing dotted-quad.  `isPrivateIp` and
`matches172` are translated directly from lines 35–43 of the source. -/

def isAsciiDigit (c : Char) : Bool := ('0') ≤ c && c ≤ ('9')

def digitVal (c : Char) : Nat := c.toNat - 48

def isDecOctet : List Char → Bool
  | [a] => isAsciiDigit a
  | [a, b] => isAsciiDigit a && isAsciiDigit b && a ≠ ('0')
  | [a, b, c] =>
    isAsciiDigit a && isAsciiDigit b && isAsciiDigit c && a ≠ ('0') &&
    decide (digitVal a * 100 + digitVal b * 10 + digitVal c ≤ 255)
  | _ => false

def isIPv4 (l : List Char) : Bool :=
  match splitOnChar ('.') l with
  | [a, b, c, d] => isDecOctet a && isDecOctet b && isDecOctet c && isDecOctet d
  | _ => false

def isHexDigitChar (c : Char) : Bool :=
  isAsciiDigit c || (('a') ≤ c && c ≤ ('f')) || (('A') ≤ c && c ≤ ('F'))

def isHex4 (g : List Char) : Bool :=
  decide (1 ≤ g.length) && decide (g.length ≤ 4) && g.all isHexDigitChar

/-- Every group is a hex group, except that the final group may instead be a
dotted-quad IPv4 (which then stands for two 16-bit groups). -/
def hexGroupsOk : List (List Char) → Bool
  | [] => true
  | [g] => isHex4 g || isIPv4 g
  | g :: gs => isHex4 g && hexGroupsOk gs

def groupWeight : List (List Char) → Nat
  | [] => 0
  | [g] => if isIPv4 g then 2 else 1
  | _ :: gs => 1 + groupWeight gs

def noEmptyGroup (gs : List (List Char)) : Bool := gs.all (fun g => !g.isEmpty)

def countEmptyGroups (gs : List (List Char)) : Nat :=
  gs.countP (fun g => g.isEmpty)

def ipv6Compressed (parts : List (List Char)) : Bool :=
  if parts = [[], [], []] then true
  else
    match parts with
    | [] :: [] :: rest =>
      noEmptyGroup rest && hexGroupsOk rest && decide (groupWeight rest ≤ 7)
    | _ =>
      match parts.reverse with
      | [] :: [] :: revRest =>
        noEmptyGroup revRest && hexGroupsOk revRest.reverse &&
        decide (groupWeight revRest.reverse ≤ 7)
      | _ =>
        decide (countEmptyGroups parts = 1) &&
        decide (parts.head? ≠ some []) && decide (parts.getLast? ≠ some []) &&
        hexGroupsOk (parts.filter (fun g => !g.isEmpty)) &&
        decide (groupWeight (parts.filter (fun g => !g.isEmpty)) ≤ 7)

def isIPv6 (l : List Char) : Bool :=
  let parts := splitOnChar (':') l
  if decide (parts.length < 2) then false
  else if noEmptyGroup parts then
    hexGroupsOk parts && decide (groupWeight parts = 8)
  else ipv6Compressed parts

/-- Model of Node's `net.isIP`: `4`, `6`, or `0` for an invalid literal. -/
def net_isIP (ip : String) : Nat :=
  if isIPv4 ip.toList then 4 else if isIPv6 ip.toList then 6 else 0

/-- `/^172\.(1[6-9]|2\d|3[0-1])\./` (line 39 of the source). -/
def matches172 : List Char → Bool
  | ('1') :: ('7') :: ('2') :: ('.') :: c1 :: c2 :: ('.') :: _ =>
    (c1 = ('1') && ('6') ≤ c2 && c2 ≤ ('9')) ||
    (c1 = ('2') && isAsciiDigit c2) ||
    (c1 = ('3') && (c2 = ('0') || c2 = ('1')))
  | _ => false

def tenDotLit : List Char := ('1') :: ('0') :: ('.') :: []

def loopbackLit : List Char := ('1') :: ('2') :: ('7') :: ('.') :: []

def linkLocalLit : List Char :=
  ('1') :: ('6') :: ('9') :: ('.') :: ('2') :: ('5') :: ('4') :: ('.') :: []

def rfc1918Lit : List Char :=
  ('1') :: ('9') :: ('2') :: ('.') :: ('1') :: ('6') :: ('8') :: ('.') :: []

def fe80Lit : List Char := ('f') :: ('e') :: ('8') :: ('0') :: []

def v6LoopbackLit : List Char := (':') :: (':') :: ('1') :: []

def v6UnspecifiedLit : List Char := (':') :: (':') :: []

/-- `isPrivateIp` (lines 35–43 of the source). -/
def isPrivateIp (ip : String) : Bool :=
  if net_isIP ip = 0 then false
  else
    let l := ip.toList
    if listStartsWith tenDotLit l || listStartsWith loopbackLit l ||
       listStartsWith linkLocalLit l || listStartsWith rfc1918Lit l ||
       matches172 l then true
    else if l = v6LoopbackLit || listStartsWith fe80Lit l || l = v6UnspecifiedLit then true
    else false

/-! ## The import pipeline (`/import.url` handler, lines 83–163)

External collaborators are passed in as oracles: `parseUrl` models the WHATWG
`new URL(...)` parser (yielding the protocol and hostname the handler reads),
`lookup` models `dns.lookup(hostname, { all: true })` (`none` is a rejected
promise, which `hostnameToIPs` turns into `[]`), and `fetchRes` is the
outcome of the single `fetch` call.  The returned trace records the route's
result, whether the fetch was performed, and the `writeFileSync`/`renameSync`
calls — so "rejects before any fetch and creates no file" is expressible. -/

structure Url where
  protocol : String
  hostname : String
deriving DecidableEq

inductive FetchOutcome where
  | timeout
  | response (status : Nat) (body : String)
deriving DecidableEq

inductive ImportResult where
  | missingUrl
  | invalidScheme
  | invalidUrl
  | unresolvableHost
  | forbiddenTarget
  | fetchTimeout
  | upstreamError (status : Nat)
  | payloadTooLarge
  | contentRejected
  | notValidSvg
  | imported (filename : String)
deriving DecidableEq

structure ImportTrace where
  result : ImportResult
  fetchAttempted : Bool
  writes : List (String × String)
  renames : List (String × String)
deriving DecidableEq

/-- `hostnameToIPs` (lines 26–33): a lookup failure yields the empty list. -/
def hostnameToIPs (lookup : String → Option (List String)) (hostname : String) : List String :=
  (lookup hostname).getD []

/-- `isHttpUrl` (lines 17–24). -/
def isHttpUrl (parseUrl : String → Option Url) (u : String) : Bool :=
  match parseUrl u with
  | some parsed => parsed.protocol = ("http:") || parsed.protocol = ("https:")
  | none => false

/-- `path.join(dir, name)` for the plain relative segments used by the source. -/
def pathJoin (dir name : String) : String := dir ++ ("/") ++ name

def svgExtS : String := ".svg"

def tmpExtS : String := ".tmp"

/-- The `/import.url` handler.  The content-type inspection of lines 120–125
is a no-op in the source (its rejection is commented out) and is therefore
not modelled.  `uuid` is the identifier produced by `uuidv4()`. -/
def importFromUrl (parseUrl : String → Option Url) (lookup : String → Option (List String))
    (fetchRes : FetchOutcome) (uuid uploadDir : String) (bodyUrl : Option String) :
    ImportTrace :=
  if jsTrimS (bodyUrl.getD ("")) = ("") then ⟨.missingUrl, false, [], []⟩
  else if isHttpUrl parseUrl (jsTrimS (bodyUrl.getD (""))) = false then
    ⟨.invalidScheme, false, [], []⟩
  else
    match parseUrl (jsTrimS (bodyUrl.getD (""))) with
    | none => ⟨.invalidUrl, false, [], []⟩
    | some parsed =>
      if hostnameToIPs lookup parsed.hostname = [] then ⟨.unresolvableHost, false, [], []⟩
      else if (hostnameToIPs lookup parsed.hostname).any isPrivateIp then
        ⟨.forbiddenTarget, false, [], []⟩
      else
        match fetchRes with
        | .timeout => ⟨.fetchTimeout, true, [], []⟩
        | .response status body =>
          if ¬ (200 ≤ status ∧ status ≤ 299) then ⟨.upstreamError status, true, [], []⟩
          else if 500 * 1024 < body.utf8ByteSize then ⟨.payloadTooLarge, true, [], []⟩
          else
            match sanitizeSvg body with
            | none => ⟨.contentRejected, true, [], []⟩
            | some clean =>
              if testSvgTag clean.toList = false then ⟨.notValidSvg, true, [], []⟩
              else
                ⟨.imported (uuid ++ svgExtS), true,
                 [(pathJoin uploadDir (uuid ++ svgExtS) ++ tmpExtS, clean)],
                 [(pathJoin uploadDir (uuid ++ svgExtS) ++ tmpExtS,
                   pathJoin uploadDir (uuid ++ svgExtS))]⟩

/-! ## The read routes (lines 166–214)

`isValidUploadName` is the name grammar `/^[a-f0-9\-]{36}\.svg$/i`.  The
routes take the filesystem as oracles (`fsE` for `existsSync`, `fsR` for
`readFileSync`/`sendFile`) and record in the trace every path passed to
them, so "rejected before any filesystem access" is expressible.
`reqContentType` on `serveRaw` stands for whatever content type the client
supplied with the request; the handler never consults it. -/

def isHexHyphen (c : Char) : Bool :=
  (('a') ≤ c && c ≤ ('f')) || (('A') ≤ c && c ≤ ('F')) || isAsciiDigit c || c = ('-')

/-- The `\.svg` tail of the grammar (`\.` is literal, `svg` case-insensitive). -/
def isSvgExt : List Char → Bool
  | [e1, e2, e3, e4] =>
    e1 = ('.') && ciEqChar ('s') e2 && ciEqChar ('v') e3 && ciEqChar ('g') e4
  | _ => false

/-- `isValidUploadName` (lines 72–75): `/^[a-f0-9\-]{36}\.svg$/i`. -/
def isValidUploadName (name : String) : Bool :=
  let l := name.toList
  decide (l.length = 40) && (l.take 36).all isHexHyphen && isSvgExt (l.drop 36)

structure ReadTrace where
  status : Nat
  headers : List (String × String)
  body : Option String
  fsExistsCalls : List String
  fsReadCalls : List String
deriving DecidableEq

def invalidNameTrace : ReadTrace := ⟨400, [], some ("Invalid filename"), [], []⟩

def svgMimeS : String := "image/svg+xml; charset=utf-8"

/-- The `/uploads/:name` handler (lines 166–180). -/
def serveRaw (uploadDir : String) (fsE : String → Bool) (fsR : String → String)
    (_reqContentType : Option String) (name : String) : ReadTrace :=
  if isValidUploadName name = false then invalidNameTrace
  else if fsE (pathJoin uploadDir name) = false then
    ⟨404, [], some ("Not found"), [pathJoin uploadDir name], []⟩
  else
    ⟨200, [(("Content-Type"), svgMimeS)], some (fsR (pathJoin uploadDir name)),
     [pathJoin uploadDir name], [pathJoin uploadDir name]⟩

/-- `name.replace(/</g, '&lt;').replace(/>/g, '&gt;')` (line 198). -/
def escLt : List Char → List Char
  | [] => []
  | c :: cs => if c = ('<') then ('&') :: ('l') :: ('t') :: (';') :: escLt cs else c :: escLt cs

def escGt : List Char → List Char
  | [] => []
  | c :: cs => if c = ('>') then ('&') :: ('g') :: ('t') :: (';') :: escGt cs else c :: escGt cs

def htmlEscapeLtGt (s : String) : String := List.asString (escGt (escLt s.toList))

/-- The inline preview shell (lines 201–213). -/
def viewHtml (safeTitle svg : String) : String :=
  ("<!doctype html>\n<html lang=\"en\">\n<head>\n  <meta charset=\"utf-8\">\n  <title>View SVG - ")
  ++ safeTitle ++
  ("</title>\n  <meta name=\"viewport\" content=\"width=device-width,initial-scale=1\">\n</head>\n<body>\n  <h1>Viewing SVG: ")
  ++ safeTitle ++
  ("</h1>\n  <div id=\"preview\">") ++ svg ++
  ("</div>\n  <p><a href=\"/uploads/") ++ safeTitle ++
  ("\" download>Download SVG</a> — <a href=\"/\">Back</a></p>\n</body>\n</html>")

def previewCsp : String :=
  "default-src \x27none\x27; img-src \x27self\x27; style-src \x27unsafe-inline\x27;"

/-- The `/view/:name` handler (lines 184–214). -/
def servePreview (uploadDir : String) (fsE : String → Bool) (fsR : String → String)
    (name : String) : ReadTrace :=
  if isValidUploadName name = false then invalidNameTrace
  else if fsE (pathJoin uploadDir name) = false then
    ⟨404, [], some ("Not found"), [pathJoin uploadDir name], []⟩
  else
    ⟨200,
     [(("Content-Security-Policy"), previewCsp), (("X-Content-Type-Options"), ("nosniff"))],
     some (viewHtml (htmlEscapeLtGt name) (fsR (pathJoin uploadDir name))),
     [pathJoin uploadDir name], [pathJoin uploadDir name]⟩

/-! ## Spec-side reading of the preview content-security policy

These two definitions follow the words of the specification ("a restrictive
content-security policy disallowing all script execution and all network
fetches except same-origin images"), to be compared with the concrete header
string the source sets: a CSP disallows scripts when `default-src` is
`'none'` and no `script-src` directive overrides it; its only source-granting
directives are the same-origin image allowance and inline styles (which grant
no network source). -/

def cspDirectives (csp : String) : List (List Char) :=
  ((splitOnChar (';') csp.toList).map jsTrimL).filter (fun d => !d.isEmpty)

def defaultNoneLit : List Char := ("default-src \x27none\x27").toList

def imgSelfLit : List Char := ("img-src \x27self\x27").toList

def styleInlineLit : List Char := ("style-src \x27unsafe-inline\x27").toList

def scriptSrcLit : List Char := ("script-src").toList

def specCspDisallowsScriptExecution (csp : String) : Bool :=
  (cspDirectives csp).contains defaultNoneLit &&
  (cspDirectives csp).all (fun d => !listStartsWith scriptSrcLit d)

def specCspFetchesOnlySelfImages (csp : String) : Bool :=
  (cspDirectives csp).all
    (fun d => d = defaultNoneLit || d = imgSelfLit || d = styleInlineLit) &&
  (cspDirectives csp).contains imgSelfLit

/-! ## Equation lemmas for the matchers

The definitions above compile to structural recursions; these `rfl` lemmas
restate one unfolding step each, in the shape the proofs below rewrite with. -/

theorem litCI_nil (s : List Char) : litCI [] s = some s := rfl

theorem litCI_cons_nil (p : Char) (ps : List Char) : litCI (p :: ps) [] = none := rfl

theorem litCI_cons_cons (p : Char) (ps : List Char) (c : Char) (cs : List Char) :
    litCI (p :: ps) (c :: cs) = if ciEqChar p c then litCI ps cs else none := rfl

theorem boundaryAfterWord_nil : boundaryAfterWord [] = some [] := rfl

theorem boundaryAfterWord_cons (c : Char) (cs : List Char) :
    boundaryAfterWord (c :: cs) = if isWordChar c then none else some (c :: cs) := rfl

theorem upToChar_nil (q : Char) : upToChar q [] = none := rfl

theorem upToChar_cons (q c : Char) (cs : List Char) :
    upToChar q (c :: cs) = if c = q then some cs else upToChar q cs := rfl

theorem wordRun1_nil : wordRun1 [] = none := rfl

theorem wordRun1_cons (c : Char) (cs : List Char) :
    wordRun1 (c :: cs) =
      if isWordChar c then some (cs.dropWhile isWordChar) else none := rfl

theorem quotedP_nil (q : Char) : quotedP q [] = none := rfl

theorem quotedP_cons (q c : Char) (cs : List Char) :
    quotedP q (c :: cs) = if c = q then upToChar q cs else none := rfl

theorem bareValueP_nil : bareValueP [] = none := rfl

theorem bareValueP_cons (c : Char) (cs : List Char) :
    bareValueP (c :: cs) =
      if isBareValChar c then some (cs.dropWhile isBareValChar) else none := rfl

theorem lazyFind_nil (closer : List Char → Option (List Char)) :
    lazyFind closer [] = closer [] := rfl

theorem lazyFind_cons (closer : List Char → Option (List Char)) (c : Char) (cs : List Char) :
    lazyFind closer (c :: cs) =
      match closer (c :: cs) with
      | some r => some r
      | none => lazyFind closer cs := rfl

theorem jsQuotedP_nil (q : Char) : jsQuotedP q [] = none := rfl

theorem jsQuotedP_cons (q c : Char) (cs : List Char) :
    jsQuotedP q (c :: cs) =
      (if c = q then
        match litCI javascriptLit cs with
        | some r => upToChar q r
        | none => none
      else none) := rfl

theorem httpUrlQuotedP_nil (q : Char) : httpUrlQuotedP q [] = none := rfl

theorem httpUrlQuotedP_cons (q c : Char) (cs : List Char) :
    httpUrlQuotedP q (c :: cs) =
      (if c = q then
        match litCI httpLit cs with
        | some r =>
          match (match litCI sLit r with
                 | some r1 =>
                   match litCI slashesLit r1 with
                   | some r2 => some r2
                   | none => litCI slashesLit r
                 | none => litCI slashesLit r) with
          | some r3 => upToChar q r3
          | none => none
        | none => none
      else none) := rfl

theorem onAttrP_nil : onAttrP [] = none := rfl

theorem onAttrP_cons (c : Char) (cs : List Char) :
    onAttrP (c :: cs) =
      (if isWsChar c then
        match litCI onLit cs with
        | some r1 =>
          match wordRun1 r1 with
          | some r2 =>
            match eqSign r2 with
            | some r3 => attrValueP r3
            | none => none
          | none => none
        | none => none
      else none) := rfl

theorem frameP_nil : frameP [] = none := rfl

theorem frameP_cons (c : Char) (cs : List Char) :
    frameP (c :: cs) =
      (if c = ('<') then
        match frameTagP iframeLit cs with
        | some r => some r
        | none =>
          match frameTagP objectLit cs with
          | some r => some r
          | none =>
            match frameTagP embedLit cs with
            | some r => some r
            | none => frameTagP foreignObjectLit cs
      else none) := rfl

theorem existsMatch_nil (p : List Char → Option (List Char)) :
    existsMatch p [] = (p []).isSome := rfl

theorem existsMatch_cons (p : List Char → Option (List Char)) (c : Char) (cs : List Char) :
    existsMatch p (c :: cs) = ((p (c :: cs)).isSome || existsMatch p cs) := rfl

theorem scanReplaceF_zero (p : List Char → Option (List Char)) (s : List Char) :
    scanReplaceF p 0 s = s := rfl

theorem scanReplaceF_nil (p : List Char → Option (List Char)) (f : Nat) :
    scanReplaceF p (f + 1) [] = [] := rfl

theorem scanReplaceF_cons (p : List Char → Option (List Char)) (f : Nat)
    (c : Char) (cs : List Char) :
    scanReplaceF p (f + 1) (c :: cs) =
      match p (c :: cs) with
      | some rest =>
        if rest.length < cs.length + 1 then scanReplaceF p f rest
        else c :: scanReplaceF p f cs
      | none => c :: scanReplaceF p f cs := rfl

theorem listStartsWith_nil (s : List Char) : listStartsWith [] s = true := rfl

theorem listStartsWith_cons_nil (p : Char) (ps : List Char) :
    listStartsWith (p :: ps) [] = false := rfl

theorem listStartsWith_cons_cons (p : Char) (ps : List Char) (c : Char) (cs : List Char) :
    listStartsWith (p :: ps) (c :: cs) = (p = c && listStartsWith ps cs) := rfl

theorem containsSub_nil (n : List Char) : containsSub n [] = listStartsWith n [] := rfl

theorem containsSub_cons (n : List Char) (c : Char) (cs : List Char) :
    containsSub n (c :: cs) = (listStartsWith n (c :: cs) || containsSub n cs) := rfl

/-! ## Combinator lemmas -/

theorem ciEqChar_self (c : Char) : ciEqChar c c = true := by
  simp [ciEqChar]

theorem litCI_spec {p s r : List Char} (h : litCI p s = some r) :
    r.length + p.length = s.length ∧ r <:+ s := by
  induction p generalizing s with
  | nil =>
    rw [litCI_nil] at h
    obtain rfl : s = r := by simpa using h
    exact ⟨by simp, List.suffix_refl _⟩
  | cons a ps ih =>
    cases s with
    | nil => rw [litCI_cons_nil] at h; exact absurd h (by simp)
    | cons c cs =>
      rw [litCI_cons_cons] at h
      split at h
      · obtain ⟨hl, hs⟩ := ih h
        refine ⟨?_, hs.trans (List.suffix_cons c cs)⟩
        simp only [List.length_cons]
        omega
      · exact absurd h (by simp)

theorem litCI_append (p r : List Char) : litCI p (p ++ r) = some r := by
  induction p with
  | nil => simp [litCI_nil]
  | cons a ps ih => simp [litCI_cons_cons, ciEqChar_self, ih]

theorem skipWs_suffix (s : List Char) : skipWs s <:+ s :=
  List.dropWhile_suffix _

theorem boundaryAfterWord_eq {s r : List Char} (h : boundaryAfterWord s = some r) :
    r = s := by
  cases s with
  | nil => rw [boundaryAfterWord_nil] at h; simpa using h.symm
  | cons c cs =>
    rw [boundaryAfterWord_cons] at h
    split at h
    · exact absurd h (by simp)
    · simpa using h.symm

theorem upToChar_spec {q : Char} {s r : List Char} (h : upToChar q s = some r) :
    r <:+ s ∧ r.length < s.length := by
  induction s with
  | nil => rw [upToChar_nil] at h; exact absurd h (by simp)
  | cons c cs ih =>
    rw [upToChar_cons] at h
    split at h
    · obtain rfl : cs = r := by simpa using h
      exact ⟨List.suffix_cons c cs, by simp⟩
    · obtain ⟨hs, hl⟩ := ih h
      exact ⟨hs.trans (List.suffix_cons c cs), Nat.lt_trans hl (by simp)⟩

theorem wordRun1_spec {s r : List Char} (h : wordRun1 s = some r) :
    r <:+ s ∧ r.length < s.length := by
  cases s with
  | nil => rw [wordRun1_nil] at h; exact absurd h (by simp)
  | cons c cs =>
    rw [wordRun1_cons] at h
    split at h
    · obtain rfl : cs.dropWhile isWordChar = r := by simpa using h
      refine ⟨(List.dropWhile_suffix _).trans (List.suffix_cons c cs), ?_⟩
      exact Nat.lt_succ_of_le (List.IsSuffix.length_le (List.dropWhile_suffix _))
    · exact absurd h (by simp)

theorem eqSign_spec {s r : List Char} (h : eqSign s = some r) :
    r <:+ s ∧ r.length < s.length := by
  unfold eqSign at h
  split at h
  case h_1 c t hw =>
    split at h
    · obtain rfl : t = r := by simpa using h
      have hsfx : c :: t <:+ s := hw ▸ skipWs_suffix s
      have hle := hsfx.length_le
      simp only [List.length_cons] at hle
      exact ⟨(List.suffix_cons c t).trans hsfx, by omega⟩
    · exact absurd h (by simp)
  case h_2 => exact absurd h (by simp)

theorem closeTag_spec {tag s r : List Char} (h : closeTag tag s = some r) :
    r <:+ s ∧ r.length < s.length := by
  unfold closeTag at h
  split at h
  case h_1 r1 h1 =>
    obtain ⟨hl1, hs1⟩ := litCI_spec h1
    split at h
    case h_1 c t hw =>
      split at h
      · obtain rfl : t = r := by simpa using h
        have hsfx : c :: t <:+ r1 := hw ▸ skipWs_suffix r1
        have hle := hsfx.length_le
        simp only [List.length_cons] at hle
        have hln := hs1.length_le
        exact ⟨((List.suffix_cons c t).trans hsfx).trans hs1, by omega⟩
      · exact absurd h (by simp)
    case h_2 => exact absurd h (by simp)
  case h_2 => exact absurd h (by simp)

theorem lazyFind_spec {closer : List Char → Option (List Char)}
    (hc : ∀ t r, closer t = some r → r <:+ t ∧ r.length < t.length)
    {s r : List Char} (h : lazyFind closer s = some r) :
    r <:+ s ∧ r.length ≤ s.length := by
  induction s with
  | nil =>
    rw [lazyFind_nil] at h
    have := hc [] r h
    exact ⟨this.1, this.2.le⟩
  | cons c cs ih =>
    rw [lazyFind_cons] at h
    split at h
    case h_1 r0 h0 =>
      obtain rfl : r0 = r := by simpa using h
      exact ⟨(hc _ _ h0).1, (hc _ _ h0).2.le⟩
    case h_2 h0 =>
      obtain ⟨hs, hl⟩ := ih h
      exact ⟨hs.trans (List.suffix_cons c cs), by simpa using Nat.le_succ_of_le hl⟩

theorem quotedP_spec {q : Char} {s r : List Char} (h : quotedP q s = some r) :
    r <:+ s ∧ r.length < s.length := by
  cases s with
  | nil => rw [quotedP_nil] at h; exact absurd h (by simp)
  | cons c cs =>
    rw [quotedP_cons] at h
    split at h
    · obtain ⟨hs, hl⟩ := upToChar_spec h
      exact ⟨hs.trans (List.suffix_cons c cs), Nat.lt_trans hl (by simp)⟩
    · exact absurd h (by simp)

theorem bareValueP_spec {s r : List Char} (h : bareValueP s = some r) :
    r <:+ s ∧ r.length < s.length := by
  cases s with
  | nil => rw [bareValueP_nil] at h; exact absurd h (by simp)
  | cons c cs =>
    rw [bareValueP_cons] at h
    split at h
    · obtain rfl : cs.dropWhile isBareValChar = r := by simpa using h
      refine ⟨(List.dropWhile_suffix _).trans (List.suffix_cons c cs), ?_⟩
      exact Nat.lt_succ_of_le (List.IsSuffix.length_le (List.dropWhile_suffix _))
    · exact absurd h (by simp)

theorem attrValueP_spec {s r : List Char} (h : attrValueP s = some r) :
    r <:+ s ∧ r.length ≤ s.length := by
  unfold attrValueP at h
  have hsw : skipWs s <:+ s := skipWs_suffix s
  split at h
  case h_1 r1 h1 =>
    obtain rfl : r1 = r := by simpa using h
    obtain ⟨hs, hl⟩ := quotedP_spec h1
    exact ⟨hs.trans hsw, le_trans hl.le hsw.length_le⟩
  case h_2 =>
    split at h
    case h_1 r2 h2 =>
      obtain rfl : r2 = r := by simpa using h
      obtain ⟨hs, hl⟩ := quotedP_spec h2
      exact ⟨hs.trans hsw, le_trans hl.le hsw.length_le⟩
    case h_2 =>
      obtain ⟨hs, hl⟩ := bareValueP_spec h
      exact ⟨hs.trans hsw, le_trans hl.le hsw.length_le⟩

theorem jsQuotedP_spec {q : Char} {s r : List Char} (h : jsQuotedP q s = some r) :
    r <:+ s ∧ r.length < s.length := by
  cases s with
  | nil => rw [jsQuotedP_nil] at h; exact absurd h (by simp)
  | cons c cs =>
    rw [jsQuotedP_cons] at h
    split at h
    · split at h
      case h_1 r1 h1 =>
        obtain ⟨_, hs1⟩ := litCI_spec h1
        obtain ⟨hs, hl⟩ := upToChar_spec h
        have hle := hs1.length_le
        refine ⟨((hs.trans hs1)).trans (List.suffix_cons c cs), ?_⟩
        simp only [List.length_cons]
        omega
      case h_2 => exact absurd h (by simp)
    · exact absurd h (by simp)

theorem jsBareP_spec {s r : List Char} (h : jsBareP s = some r) :
    r <:+ s ∧ r.length < s.length := by
  unfold jsBareP at h
  split at h
  case h_1 r1 h1 =>
    obtain ⟨hl1, hs1⟩ := litCI_spec h1
    obtain ⟨hs, hl⟩ := bareValueP_spec h
    have hle := hs1.length_le
    exact ⟨hs.trans hs1, by omega⟩
  case h_2 => exact absurd h (by simp)

theorem jsValueP_spec {s r : List Char} (h : jsValueP s = some r) :
    r <:+ s ∧ r.length ≤ s.length := by
  unfold jsValueP at h
  have hsw : skipWs s <:+ s := skipWs_suffix s
  split at h
  case h_1 r1 h1 =>
    obtain rfl : r1 = r := by simpa using h
    obtain ⟨hs, hl⟩ := jsQuotedP_spec h1
    exact ⟨hs.trans hsw, le_trans hl.le hsw.length_le⟩
  case h_2 =>
    split at h
    case h_1 r2 h2 =>
      obtain rfl : r2 = r := by simpa using h
      obtain ⟨hs, hl⟩ := jsQuotedP_spec h2
      exact ⟨hs.trans hsw, le_trans hl.le hsw.length_le⟩
    case h_2 =>
      obtain ⟨hs, hl⟩ := jsBareP_spec h
      exact ⟨hs.trans hsw, le_trans hl.le hsw.length_le⟩

theorem httpUrlQuotedP_spec {q : Char} {s r : List Char}
    (h : httpUrlQuotedP q s = some r) : r <:+ s ∧ r.length < s.length := by
  cases s with
  | nil => rw [httpUrlQuotedP_nil] at h; exact absurd h (by simp)
  | cons c cs =>
    rw [httpUrlQuotedP_cons] at h
    split at h
    · split at h
      case h_1 r1 h1 =>
        obtain ⟨_, hs1⟩ := litCI_spec h1
        split at h
        case h_1 r3 h3 =>
          have h3s : r3 <:+ r1 := by
            split at h3
            case h_1 rA hA =>
              split at h3
              case h_1 rB hB =>
                obtain rfl : rB = r3 := by simpa using h3
                exact ((litCI_spec hB).2).trans (litCI_spec hA).2
              case h_2 => exact (litCI_spec h3).2
            case h_2 => exact (litCI_spec h3).2
          obtain ⟨hs, hl⟩ := upToChar_spec h
          have hle := (h3s.trans hs1).length_le
          refine ⟨((hs.trans h3s).trans hs1).trans (List.suffix_cons c cs), ?_⟩
          simp only [List.length_cons]
          omega
        case h_2 => exact absurd h (by simp)
      case h_2 => exact absurd h (by simp)
    · exact absurd h (by simp)

theorem extValueP_spec {s r : List Char} (h : extValueP s = some r) :
    r <:+ s ∧ r.length ≤ s.length := by
  unfold extValueP at h
  have hsw : skipWs s <:+ s := skipWs_suffix s
  split at h
  case h_1 r1 h1 =>
    obtain rfl : r1 = r := by simpa using h
    obtain ⟨hs, hl⟩ := httpUrlQuotedP_spec h1
    exact ⟨hs.trans hsw, le_trans hl.le hsw.length_le⟩
  case h_2 =>
    obtain ⟨hs, hl⟩ := httpUrlQuotedP_spec h
    exact ⟨hs.trans hsw, le_trans hl.le hsw.length_le⟩

/-! ## Strictness of the five removal patterns

Every successful match consumes at least one character: this is what makes a
global replacement by the empty string strictly shrink the text. -/

theorem scriptP_strict {s r : List Char} (h : scriptP s = some r) :
    r.length < s.length := by
  unfold scriptP at h
  split at h
  case h_1 r1 h1 =>
    obtain ⟨hl1, _⟩ := litCI_spec h1
    split at h
    case h_1 r2 h2 =>
      obtain rfl : r2 = r1 := boundaryAfterWord_eq h2
      split at h
      case h_1 r3 h3 =>
        obtain ⟨_, hl3⟩ := upToChar_spec h3
        obtain ⟨_, hl4⟩ := lazyFind_spec (fun t r hr => closeTag_spec hr) h
        simp only [scriptLit, List.length_cons] at hl1
        omega
      case h_2 => exact absurd h (by simp)
    case h_2 => exact absurd h (by simp)
  case h_2 => exact absurd h (by simp)

theorem onAttrP_strict {s r : List Char} (h : onAttrP s = some r) :
    r.length < s.length := by
  cases s with
  | nil => rw [onAttrP_nil] at h; exact absurd h (by simp)
  | cons c cs =>
    rw [onAttrP_cons] at h
    split at h
    · split at h
      case h_1 r1 h1 =>
        obtain ⟨_, hs1⟩ := litCI_spec h1
        split at h
        case h_1 r2 h2 =>
          obtain ⟨hs2, _⟩ := wordRun1_spec h2
          split at h
          case h_1 r3 h3 =>
            obtain ⟨hs3, _⟩ := eqSign_spec h3
            obtain ⟨_, hl4⟩ := attrValueP_spec h
            have hch : r3.length ≤ cs.length :=
              le_trans (le_trans hs3.length_le hs2.length_le) hs1.length_le
            simp only [List.length_cons]
            omega
          case h_2 => exact absurd h (by simp)
        case h_2 => exact absurd h (by simp)
      case h_2 => exact absurd h (by simp)
    · exact absurd h (by simp)

theorem jsHrefP_strict {s r : List Char} (h : jsHrefP s = some r) :
    r.length < s.length := by
  unfold jsHrefP at h
  split at h
  case h_1 r1 h1 =>
    have hl1 : r1.length < s.length := by
      split at h1
      case h_1 rA hA =>
        obtain rfl : rA = r1 := by simpa using h1
        obtain ⟨hl, _⟩ := litCI_spec hA
        simp only [hrefLit, List.length_cons] at hl
        omega
      case h_2 hA =>
        obtain ⟨hl, _⟩ := litCI_spec h1
        simp only [xlinkHrefLit, List.length_cons] at hl
        omega
    split at h
    case h_1 r2 h2 =>
      obtain ⟨hs2, _⟩ := eqSign_spec h2
      obtain ⟨_, hl3⟩ := jsValueP_spec h
      have := hs2.length_le
      omega
    case h_2 => exact absurd h (by simp)
  case h_2 => exact absurd h (by simp)

theorem frameTagP_le {tag s r : List Char} (h : frameTagP tag s = some r) :
    r.length ≤ s.length := by
  unfold frameTagP at h
  split at h
  case h_1 r1 h1 =>
    obtain ⟨hl1, _⟩ := litCI_spec h1
    split at h
    case h_1 r2 h2 =>
      obtain rfl : r2 = r1 := boundaryAfterWord_eq h2
      split at h
      case h_1 r3 h3 =>
        obtain ⟨_, hl3⟩ := upToChar_spec h3
        obtain ⟨_, hl4⟩ := lazyFind_spec (fun t r hr => closeTag_spec hr) h
        omega
      case h_2 => exact absurd h (by simp)
    case h_2 => exact absurd h (by simp)
  case h_2 => exact absurd h (by simp)

theorem frameP_strict {s r : List Char} (h : frameP s = some r) :
    r.length < s.length := by
  cases s with
  | nil => rw [frameP_nil] at h; exact absurd h (by simp)
  | cons c cs =>
    rw [frameP_cons] at h
    split at h
    · have le_of : ∀ (r' : List Char) (tag : List Char), frameTagP tag cs = some r' →
          r'.length < (c :: cs).length := by
        intro r' tag h'
        have := frameTagP_le h'
        simp only [List.length_cons]
        omega
      split at h
      case h_1 rA hA =>
        obtain rfl : rA = r := by simpa using h
        exact le_of rA _ hA
      case h_2 hA =>
        split at h
        case h_1 rB hB =>
          obtain rfl : rB = r := by simpa using h
          exact le_of rB _ hB
        case h_2 hB =>
          split at h
          case h_1 rC hC =>
            obtain rfl : rC = r := by simpa using h
            exact le_of rC _ hC
          case h_2 hC => exact le_of r _ h
    · exact absurd h (by simp)

theorem extHrefP_strict {s r : List Char} (h : extHrefP s = some r) :
    r.length < s.length := by
  unfold extHrefP at h
  split at h
  case h_1 r1 h1 =>
    have hl1 : r1.length < s.length := by
      split at h1
      case h_1 rA hA =>
        obtain rfl : rA = r1 := by simpa using h1
        obtain ⟨hl, _⟩ := litCI_spec hA
        simp only [xlinkHrefLit, List.length_cons] at hl
        omega
      case h_2 hA =>
        obtain ⟨hl, _⟩ := litCI_spec h1
        simp only [hrefLit, List.length_cons] at hl
        omega
    split at h
    case h_1 r2 h2 =>
      obtain ⟨hs2, _⟩ := eqSign_spec h2
      obtain ⟨_, hl3⟩ := extValueP_spec h
      have := hs2.length_le
      omega
    case h_2 => exact absurd h (by simp)
  case h_2 => exact absurd h (by simp)

/-! ## Global replacement lemmas -/

theorem scanReplaceF_length_le (p : List Char → Option (List Char)) :
    ∀ (f : Nat) (s : List Char), (scanReplaceF p f s).length ≤ s.length := by
  intro f
  induction f with
  | zero => intro s; rw [scanReplaceF_zero]
  | succ f ih =>
    intro s
    cases s with
    | nil => rw [scanReplaceF_nil]
    | cons c cs =>
      rw [scanReplaceF_cons]
      split
      case h_1 rest hp =>
        split
        case isTrue hlt =>
          have := ih rest
          simp only [List.length_cons]
          omega
        case isFalse =>
          simpa using Nat.succ_le_succ (ih cs)
      case h_2 =>
        simpa using Nat.succ_le_succ (ih cs)

theorem scanReplace_length_le (p : List Char → Option (List Char)) (s : List Char) :
    (scanReplace p s).length ≤ s.length :=
  scanReplaceF_length_le p s.length s

theorem scanReplaceF_of_no_match (p : List Char → Option (List Char)) :
    ∀ (f : Nat) (s : List Char), existsMatch p s = false → scanReplaceF p f s = s := by
  intro f
  induction f with
  | zero => intro s _; rw [scanReplaceF_zero]
  | succ f ih =>
    intro s hm
    cases s with
    | nil => rw [scanReplaceF_nil]
    | cons c cs =>
      rw [existsMatch_cons] at hm
      have hp : p (c :: cs) = none := by
        rcases hq : p (c :: cs) with _ | v
        · rfl
        · rw [hq] at hm; simp at hm
      have hcs : existsMatch p cs = false := by
        rw [hp] at hm; simpa using hm
      rw [scanReplaceF_cons, hp, ih cs hcs]

theorem scanReplace_of_no_match (p : List Char → Option (List Char)) (s : List Char)
    (hm : existsMatch p s = false) : scanReplace p s = s :=
  scanReplaceF_of_no_match p s.length s hm

theorem scanReplaceF_lt_of_match (p : List Char → Option (List Char))
    (hstrict : ∀ t r, p t = some r → r.length < t.length) :
    ∀ (f : Nat) (s : List Char), s.length ≤ f → existsMatch p s = true →
      (scanReplaceF p f s).length < s.length := by
  intro f
  induction f with
  | zero =>
    intro s hf hm
    obtain rfl : s = [] := List.eq_nil_of_length_eq_zero (Nat.le_zero.mp hf)
    rw [existsMatch_nil] at hm
    rcases hq : p [] with _ | v
    · rw [hq] at hm; simp at hm
    · exact absurd (hstrict [] v hq) (by simp)
  | succ f ih =>
    intro s hf hm
    cases s with
    | nil =>
      rw [existsMatch_nil] at hm
      rcases hq : p [] with _ | v
      · rw [hq] at hm; simp at hm
      · exact absurd (hstrict [] v hq) (by simp)
    | cons c cs =>
      rw [scanReplaceF_cons]
      rcases hq : p (c :: cs) with _ | rest
      · rw [existsMatch_cons, hq] at hm
        have hcs : existsMatch p cs = true := by simpa using hm
        have hfcs : cs.length ≤ f := by
          simp only [List.length_cons] at hf
          omega
        have := ih cs hfcs hcs
        simp only [List.length_cons]
        omega
      · have hlt : rest.length < cs.length + 1 := by
          simpa using hstrict _ _ hq
        show (if rest.length < cs.length + 1 then scanReplaceF p f rest
              else c :: scanReplaceF p f cs).length < (c :: cs).length
        rw [if_pos hlt]
        have := scanReplaceF_length_le p f rest
        simp only [List.length_cons]
        omega

theorem scanReplace_lt_of_match (p : List Char → Option (List Char))
    (hstrict : ∀ t r, p t = some r → r.length < t.length)
    (s : List Char) (hm : existsMatch p s = true) :
    (scanReplace p s).length < s.length :=
  scanReplaceF_lt_of_match p hstrict s.length s (le_refl _) hm

/-- A pattern match somewhere inside a suffix is a match of the whole text. -/
theorem existsMatch_append (p : List Char → Option (List Char)) (a t : List Char)
    (h : (p t).isSome) : existsMatch p (a ++ t) = true := by
  induction a with
  | nil =>
    cases t with
    | nil => rw [List.nil_append, existsMatch_nil]; exact h
    | cons c cs => rw [List.nil_append, existsMatch_cons]; simp [h]
  | cons b bs ih =>
    rw [List.cons_append, existsMatch_cons, ih]
    simp

/-! ## Substring and name-grammar lemmas -/

def dotdotLit : List Char := ('.') :: ('.') :: []

def slashLit : List Char := ('/') :: []

theorem listStartsWith_exists {n s : List Char} (h : listStartsWith n s = true) :
    ∃ t, s = n ++ t := by
  induction n generalizing s with
  | nil => exact ⟨s, rfl⟩
  | cons a ns ih =>
    cases s with
    | nil => rw [listStartsWith_cons_nil] at h; exact absurd h (by simp)
    | cons c cs =>
      rw [listStartsWith_cons_cons] at h
      obtain ⟨hac, htail⟩ := by simpa using h
      obtain ⟨t, ht⟩ := ih htail
      exact ⟨t, by rw [List.cons_append, ← hac, ht]⟩

theorem containsSub_exists {n hay : List Char} (h : containsSub n hay = true) :
    ∃ a b, hay = a ++ n ++ b := by
  induction hay with
  | nil =>
    rw [containsSub_nil] at h
    obtain ⟨t, ht⟩ := listStartsWith_exists h
    exact ⟨[], t, by simpa using ht⟩
  | cons c cs ih =>
    rw [containsSub_cons] at h
    rcases (by simpa using h : listStartsWith n (c :: cs) = true ∨ containsSub n cs = true)
      with h1 | h2
    · obtain ⟨t, ht⟩ := listStartsWith_exists h1
      exact ⟨[], t, by simpa using ht⟩
    · obtain ⟨a, b, hab⟩ := ih h2
      exact ⟨c :: a, b, by simp [hab]⟩

theorem isSvgExt_shape {l : List Char} (h : isSvgExt l = true) :
    ∃ e2 e3 e4, l = ('.') :: e2 :: e3 :: e4 :: [] ∧
      ciEqChar ('s') e2 = true ∧ ciEqChar ('v') e3 = true ∧ ciEqChar ('g') e4 = true := by
  match l with
  | [] => simp [isSvgExt] at h
  | [_] => simp [isSvgExt] at h
  | [_, _] => simp [isSvgExt] at h
  | [_, _, _] => simp [isSvgExt] at h
  | e1 :: e2 :: e3 :: e4 :: e5 :: t => simp [isSvgExt] at h
  | [e1, e2, e3, e4] =>
    have h' : (decide (e1 = ('.')) && ciEqChar ('s') e2 && ciEqChar ('v') e3 &&
        ciEqChar ('g') e4) = true := h
    rw [Bool.and_eq_true, Bool.and_eq_true, Bool.and_eq_true] at h'
    obtain ⟨⟨⟨hd, hs⟩, hv⟩, hg⟩ := h'
    exact ⟨e2, e3, e4, by rw [of_decide_eq_true hd], hs, hv, hg⟩

theorem isValidUploadName_parts {name : String} (h : isValidUploadName name = true) :
    name.toList.length = 40 ∧ (name.toList.take 36).all isHexHyphen = true ∧
      isSvgExt (name.toList.drop 36) = true := by
  unfold isValidUploadName at h
  rw [Bool.and_eq_true, Bool.and_eq_true] at h
  obtain ⟨⟨h1, h2⟩, h3⟩ := h
  exact ⟨of_decide_eq_true h1, h2, h3⟩

theorem isValidUploadName_count_dot {name : String} (h : isValidUploadName name = true) :
    name.toList.count ('.') = 1 := by
  obtain ⟨hlen, htake, hext⟩ := isValidUploadName_parts h
  obtain ⟨e2, e3, e4, hdrop, hc2, hc3, hc4⟩ := isSvgExt_shape hext
  have hsplit : name.toList = name.toList.take 36 ++ (('.') :: e2 :: e3 :: e4 :: []) := by
    rw [← hdrop]; exact (List.take_append_drop 36 name.toList).symm
  have h0 : (name.toList.take 36).count ('.') = 0 := by
    rw [List.count_eq_zero]
    intro hmem
    have := List.all_eq_true.mp htake _ hmem
    exact absurd this (by decide)
  have he2 : e2 ≠ ('.') := by
    intro he; rw [he] at hc2; exact absurd hc2 (by decide)
  have he3 : e3 ≠ ('.') := by
    intro he; rw [he] at hc3; exact absurd hc3 (by decide)
  have he4 : e4 ≠ ('.') := by
    intro he; rw [he] at hc4; exact absurd hc4 (by decide)
  rw [hsplit, List.count_append, h0]
  simp [List.count_cons, he2, he3, he4]

theorem isValidUploadName_count_slash {name : String} (h : isValidUploadName name = true) :
    name.toList.count ('/') = 0 := by
  obtain ⟨hlen, htake, hext⟩ := isValidUploadName_parts h
  obtain ⟨e2, e3, e4, hdrop, hc2, hc3, hc4⟩ := isSvgExt_shape hext
  have hsplit : name.toList = name.toList.take 36 ++ (('.') :: e2 :: e3 :: e4 :: []) := by
    rw [← hdrop]; exact (List.take_append_drop 36 name.toList).symm
  have h0 : (name.toList.take 36).count ('/') = 0 := by
    rw [List.count_eq_zero]
    intro hmem
    have := List.all_eq_true.mp htake _ hmem
    exact absurd this (by decide)
  have he2 : e2 ≠ ('/') := by
    intro he; rw [he] at hc2; exact absurd hc2 (by decide)
  have he3 : e3 ≠ ('/') := by
    intro he; rw [he] at hc3; exact absurd hc3 (by decide)
  have he4 : e4 ≠ ('/') := by
    intro he; rw [he] at hc4; exact absurd hc4 (by decide)
  rw [hsplit, List.count_append, h0]
  simp [List.count_cons, he2, he3, he4]

theorem invalid_of_dotdot {name : String} (h : containsSub dotdotLit name.toList = true) :
    isValidUploadName name = false := by
  by_contra hv
  have hv' : isValidUploadName name = true := by
    cases hb : isValidUploadName name
    · exact absurd hb hv
    · rfl
  obtain ⟨a, b, hab⟩ := containsSub_exists h
  have hcount := isValidUploadName_count_dot hv'
  rw [hab] at hcount
  simp [List.count_append, dotdotLit, List.count_cons] at hcount
  omega

theorem invalid_of_slash {name : String} (h : containsSub slashLit name.toList = true) :
    isValidUploadName name = false := by
  by_contra hv
  have hv' : isValidUploadName name = true := by
    cases hb : isValidUploadName name
    · exact absurd hb hv
    · rfl
  obtain ⟨a, b, hab⟩ := containsSub_exists h
  have hcount := isValidUploadName_count_slash hv'
  rw [hab] at hcount
  simp [List.count_append, slashLit, List.count_cons] at hcount

theorem isValidUploadName_tmp_false (stem : String) :
    isValidUploadName (stem ++ tmpExtS) = false := by
  by_contra hv
  have hv' : isValidUploadName (stem ++ tmpExtS) = true := by
    cases hb : isValidUploadName (stem ++ tmpExtS)
    · exact absurd hb hv
    · rfl
  obtain ⟨hlen, _, hext⟩ := isValidUploadName_parts hv'
  have htl : (stem ++ tmpExtS).toList = stem.toList ++ (tmpExtS).toList := by
    simp [String.toList, String.data_append]
  rw [htl] at hlen hext
  have hstem : stem.toList.length = 36 := by
    rw [List.length_append] at hlen
    have : (tmpExtS).toList.length = 4 := by decide
    omega
  rw [← hstem, List.drop_left] at hext
  exact absurd hext (by decide)

/-! ## The external-reference pattern only matches quoted values -/

theorem httpUrlQuotedP_none_of_head_ne {q : Char} {t : List Char}
    (h : ∀ c ∈ t, c ≠ q) : httpUrlQuotedP q t = none := by
  cases t with
  | nil => rw [httpUrlQuotedP_nil]
  | cons c cs =>
    rw [httpUrlQuotedP_cons, if_neg (h c (List.mem_cons_self c cs))]

theorem extValueP_none_of_no_quote {t : List Char}
    (hd : ('"') ∉ t) (hq : ('\x27') ∉ t) : extValueP t = none := by
  unfold extValueP
  have hsub := (skipWs_suffix t).subset
  have h1 : httpUrlQuotedP ('"') (skipWs t) = none :=
    httpUrlQuotedP_none_of_head_ne (fun c hc he => hd (he ▸ hsub hc))
  have h2 : httpUrlQuotedP ('\x27') (skipWs t) = none :=
    httpUrlQuotedP_none_of_head_ne (fun c hc he => hq (he ▸ hsub hc))
  rw [h1, h2]

theorem extHrefP_none_of_no_quote {t : List Char}
    (hd : ('"') ∉ t) (hq : ('\x27') ∉ t) : extHrefP t = none := by
  unfold extHrefP
  rcases hA : (match litCI xlinkHrefLit t with
      | some r => some r
      | none => litCI hrefLit t) with _ | r1
  · rw [hA]
  · rw [hA]
    show (match eqSign r1 with
          | some r2 => extValueP r2
          | none => none) = none
    have hs1 : r1 <:+ t := by
      split at hA
      case h_1 rA hA' =>
        obtain rfl : rA = r1 := by simpa using hA
        exact (litCI_spec hA').2
      case h_2 => exact (litCI_spec hA).2
    rcases hB : eqSign r1 with _ | r2
    · rfl
    · show extValueP r2 = none
      have hs2 : r2 <:+ r1 := (eqSign_spec hB).1
      have hsub := (hs2.trans hs1).subset
      exact extValueP_none_of_no_quote (fun m => hd (hsub m)) (fun m => hq (hsub m))

theorem existsMatch_extHref_false {t : List Char}
    (hd : ('"') ∉ t) (hq : ('\x27') ∉ t) : existsMatch extHrefP t = false := by
  induction t with
  | nil => rw [existsMatch_nil, extHrefP_none_of_no_quote hd hq]; rfl
  | cons c cs ih =>
    have hd' : ('"') ∉ cs := fun m => hd (List.mem_cons_of_mem c m)
    have hq' : ('\x27') ∉ cs := fun m => hq (List.mem_cons_of_mem c m)
    rw [existsMatch_cons, extHrefP_none_of_no_quote hd hq, ih hd' hq']
    rfl

/-! ## Any text containing a DOCTYPE or ENTITY declaration is detected -/

theorem doctypeP_at_decl (b : List Char) :
    doctypeP (("<!DOCTYPE").toList ++ b) = some b := by
  have hsplit : ("<!DOCTYPE").toList ++ b = bangLit ++ (doctypeLit ++ b) := rfl
  rw [hsplit]
  unfold doctypeP
  rw [litCI_append]
  have hws : skipWs (doctypeLit ++ b) = doctypeLit ++ b := by
    rw [doctypeLit, List.cons_append, skipWs, List.dropWhile_cons_of_neg (by decide)]
  show litCI doctypeLit (skipWs (doctypeLit ++ b)) = some b
  rw [hws, litCI_append]

theorem entityP_at_decl (b : List Char) :
    entityP (("<!ENTITY").toList ++ b) = some b := by
  have hsplit : ("<!ENTITY").toList ++ b = entityLit ++ b := rfl
  rw [hsplit]
  unfold entityP
  rw [litCI_append]

theorem testDoctype_of_decl {s : String} {a b : List Char}
    (h : s.toList = a ++ ("<!DOCTYPE").toList ++ b) : testDoctype s.toList = true := by
  rw [testDoctype, h, List.append_assoc]
  exact existsMatch_append _ _ _ (by rw [doctypeP_at_decl]; rfl)

theorem testEntity_of_decl {s : String} {a b : List Char}
    (h : s.toList = a ++ ("<!ENTITY").toList ++ b) : testEntity s.toList = true := by
  rw [testEntity, h, List.append_assoc]
  exact existsMatch_append _ _ _ (by rw [entityP_at_decl]; rfl)

/-! ## String bridging lemmas (definitional) -/

theorem asString_length (l : List Char) : (List.asString l).length = l.length := rfl

theorem asString_toList (s : String) : List.asString s.toList = s := rfl

theorem length_toList (s : String) : s.length = s.toList.length := rfl

/-- Every file operation `importFromUrl` performs targets the temporary path
(the final path with `.tmp` appended) and the final path. -/
theorem importFromUrl_trace_shape (parseUrl : String → Option Url)
    (lookup : String → Option (List String)) (fetchRes : FetchOutcome)
    (uuid uploadDir : String) (bodyUrl : Option String) :
    ((importFromUrl parseUrl lookup fetchRes uuid uploadDir bodyUrl).writes = [] ∧
     (importFromUrl parseUrl lookup fetchRes uuid uploadDir bodyUrl).renames = []) ∨
    (∃ clean,
      (importFromUrl parseUrl lookup fetchRes uuid uploadDir bodyUrl).writes =
        [(pathJoin uploadDir (uuid ++ svgExtS) ++ tmpExtS, clean)] ∧
      (importFromUrl parseUrl lookup fetchRes uuid uploadDir bodyUrl).renames =
        [(pathJoin uploadDir (uuid ++ svgExtS) ++ tmpExtS,
          pathJoin uploadDir (uuid ++ svgExtS))]) := by
  unfold importFromUrl
  repeat' split
  all_goals first
    | exact Or.inl ⟨rfl, rfl⟩
    | exact Or.inr ⟨_, rfl, rfl⟩

/-! ## The claims -/

/-- Claim C1: for every hostname whose resolution set contains at least one
address the classifier judges private/loopback/link-local — even when other
resolved addresses are public — the import pipeline returns the
forbidden-target rejection with the fetch not attempted and no file written
or renamed.  The conclusion holds for every fetch outcome `fetchRes`, so the
result cannot depend on the network at all. -/
theorem claim_C1_private_ip_forbidden_before_fetch (parseUrl : String → Option Url)
    (lookup : String → Option (List String)) (fetchRes : FetchOutcome)
    (uuid uploadDir : String) (bodyUrl : Option String) (p : Url)
    (hne : jsTrimS (bodyUrl.getD ("")) ≠ (""))
    (hparse : parseUrl (jsTrimS (bodyUrl.getD (""))) = some p)
    (hproto : p.protocol = ("http:") ∨ p.protocol = ("https:"))
    (hpriv : ∃ ip ∈ hostnameToIPs lookup p.hostname, isPrivateIp ip = true) :
    importFromUrl parseUrl lookup fetchRes uuid uploadDir bodyUrl =
      ⟨.forbiddenTarget, false, [], []⟩ := by
  obtain ⟨ip, hmem, hip⟩ := hpriv
  have hhttp : isHttpUrl parseUrl (jsTrimS (bodyUrl.getD (""))) = true := by
    unfold isHttpUrl
    rw [hparse]
    rcases hproto with h | h <;> simp [h]
  have hne2 : hostnameToIPs lookup p.hostname ≠ [] := List.ne_nil_of_mem hmem
  have hany : (hostnameToIPs lookup p.hostname).any isPrivateIp = true :=
    List.any_eq_true.mpr ⟨ip, hmem, hip⟩
  unfold importFromUrl
  rw [if_neg hne, hhttp]
  simp only [Bool.true_eq_false, if_false, hparse]
  rw [if_neg hne2, if_pos hany]

theorem claim_C1_witness :
    isPrivateIp ("10.0.0.1") = true ∧ isPrivateIp ("8.8.8.8") = false ∧
    importFromUrl (fun _ => some ⟨("http:"), ("internal.example")⟩)
      (fun _ => some [("8.8.8.8"), ("10.0.0.1")])
      (.response 200 ("<svg></svg>")) ("u") ("uploads")
      (some ("http://internal.example/a.svg")) =
      ⟨.forbiddenTarget, false, [], []⟩ :=
  ⟨by decide, by decide,
   claim_C1_private_ip_forbidden_before_fetch _ _ _ _ _ _
     (⟨("http:"), ("internal.example")⟩) (by decide) rfl (Or.inl rfl)
     ⟨("10.0.0.1"), by decide, by decide⟩⟩

/-- Claim C2: any input containing a document-type declaration (which in XML
starts with the literal characters of a DOCTYPE declaration) or an entity
declaration, anywhere and with arbitrary surrounding text, makes the
sanitizer reject (`none`, the embedded image of the thrown exception) rather
than return cleaned text. -/
theorem claim_C2_doctype_entity_rejected (s : String)
    (h : (∃ a b, s.toList = a ++ ("<!DOCTYPE").toList ++ b) ∨
         (∃ a b, s.toList = a ++ ("<!ENTITY").toList ++ b)) :
    sanitizeSvg s = none := by
  have ht : (testDoctype s.toList || testEntity s.toList) = true := by
    rcases h with ⟨a, b, hab⟩ | ⟨a, b, hab⟩
    · rw [testDoctype_of_decl hab]; rfl
    · rw [testEntity_of_decl hab]; simp
  unfold sanitizeSvg sanitizeList
  rw [ht]
  rfl

theorem claim_C2_witness :
    sanitizeSvg ("<!DOCTYPE svg [<!ENTITY x SYSTEM \"file:///etc/passwd\">]><svg>&x;</svg>")
      = none :=
  claim_C2_doctype_entity_rejected _
    (Or.inl ⟨[], (" svg [<!ENTITY x SYSTEM \"file:///etc/passwd\">]><svg>&x;</svg>").toList,
      by decide⟩)

/-- Claim C3 (divergence witness): the input below is accepted by the
sanitizer and by the root-element gate, yet its cleaned output still contains
a script block — deleting the inner `<script></script>` splices the
surrounding characters into a new `<script>` element, so re-running the
script-removal pattern on the output finds a match, contradicting the
idempotence property and the sanitizer's own stated purpose of removing
script tags. -/
theorem claim_C3_sanitizer_not_idempotent :
    sanitizeSvg ("<svg><scr<script></script>ipt>alert(1)</script></svg>")
      = some ("<svg><script>alert(1)</script></svg>") ∧
    existsMatch scriptP (("<svg><script>alert(1)</script></svg>").toList) = true ∧
    testSvgTag (("<svg><script>alert(1)</script></svg>").toList) = true := by
  refine ⟨by decide, by decide, by decide⟩

/-- Claim C4 (counterexample): a resolved entry that is not a syntactic IP
literal is not discarded: the classifier judges it "not private" (`false`),
and a hostname resolving to nothing but such an entry sails through the
admission check — the pipeline proceeds to the fetch. -/
theorem claim_C4_counterexample :
    net_isIP ("not-an-ip") = 0 ∧ isPrivateIp ("not-an-ip") = false ∧
    (importFromUrl (fun _ => some ⟨("http:"), ("weird.host")⟩)
      (fun _ => some [("not-an-ip")]) (.response 200 ("<svg></svg>")) ("u") ("uploads")
      (some ("http://weird.host/x"))).fetchAttempted = true := by
  refine ⟨by decide, by decide, by decide⟩

/-- Claim C4 (amended): the classifier never discards syntactically invalid
entries; it judges every entry that is not a valid IP literal "not private",
exactly as if it were a public address, so such entries never block the
fetch. -/
theorem claim_C4_invalid_entry_judged_not_private (ip : String)
    (h : net_isIP ip = 0) : isPrivateIp ip = false := by
  unfold isPrivateIp
  rw [if_pos h]

theorem claim_C4_witness :
    net_isIP ("garbage.entry") = 0 ∧ isPrivateIp ("garbage.entry") = false :=
  ⟨by decide, claim_C4_invalid_entry_judged_not_private ("garbage.entry") (by decide)⟩

/-- Claim C5: on both read endpoints, a requested identifier containing `..`
or `/`, or otherwise failing the fixed grammar, yields the invalid-name
rejection (status 400) whose trace shows no `existsSync` or read call was
made — the filesystem is never touched. -/
theorem claim_C5_read_rejects_invalid_names (uploadDir name : String)
    (fsE : String → Bool) (fsR : String → String) (ct : Option String)
    (h : containsSub dotdotLit name.toList = true ∨
         containsSub slashLit name.toList = true ∨
         isValidUploadName name = false) :
    serveRaw uploadDir fsE fsR ct name = invalidNameTrace ∧
    servePreview uploadDir fsE fsR name = invalidNameTrace := by
  have hval : isValidUploadName name = false := by
    rcases h with h | h | h
    · exact invalid_of_dotdot h
    · exact invalid_of_slash h
    · exact h
  refine ⟨?_, ?_⟩
  · unfold serveRaw; rw [if_pos hval]
  · unfold servePreview; rw [if_pos hval]

theorem claim_C5_witness :
    containsSub dotdotLit (("../../etc/passwd").toList) = true ∧
    serveRaw ("uploads") (fun _ => true) (fun _ => ("")) none ("../../etc/passwd") =
      invalidNameTrace ∧
    servePreview ("uploads") (fun _ => true) (fun _ => ("")) ("../../etc/passwd") =
      invalidNameTrace :=
  ⟨by decide,
   (claim_C5_read_rejects_invalid_names ("uploads") ("../../etc/passwd")
     (fun _ => true) (fun _ => ("")) none (Or.inl (by decide))).1,
   (claim_C5_read_rejects_invalid_names ("uploads") ("../../etc/passwd")
     (fun _ => true) (fun _ => ("")) none (Or.inl (by decide))).2⟩

/-- Claim C6 (counterexample): an href whose external `http` URL is written
without quotes is untouched by every removal pattern: the document is
accepted and its cleaned output still contains the external reference. -/
theorem claim_C6_counterexample :
    sanitizeSvg ("<svg href=http://e.com></svg>") = some ("<svg href=http://e.com></svg>") ∧
    containsSub (("href=http://e.com").toList)
      (("<svg href=http://e.com></svg>").toList) = true ∧
    testSvgTag (("<svg href=http://e.com></svg>").toList) = true := by
  refine ⟨by decide, by decide, by decide⟩

/-- Claim C6 (amended): the external-reference removal pattern matches only
double- or single-quoted attribute values; on any text containing no quote
character of either kind it matches nowhere and the removal step returns the
text unchanged — unquoted external references are never removed. -/
theorem claim_C6_external_href_removes_only_quoted (t : List Char)
    (hd : ('"') ∉ t) (hq : ('\x27') ∉ t) :
    existsMatch extHrefP t = false ∧ scanReplace extHrefP t = t := by
  have hm := existsMatch_extHref_false hd hq
  exact ⟨hm, scanReplace_of_no_match _ _ hm⟩

theorem claim_C6_witness :
    existsMatch extHrefP (("<svg href=http://e.org/x.png></svg>").toList) = false ∧
    scanReplace extHrefP (("<svg href=http://e.org/x.png></svg>").toList) =
      ("<svg href=http://e.org/x.png></svg>").toList :=
  claim_C6_external_href_removes_only_quoted _ (by decide) (by decide)

/-- Claim C7: a hostname whose resolution yields the empty address set —
including lookup errors, which `hostnameToIPs` maps to the empty list — makes
the pipeline return the unresolvable-host rejection with the fetch not
attempted and no file written; an unresolvable host is never treated as
safe. -/
theorem claim_C7_unresolvable_host_no_fetch (parseUrl : String → Option Url)
    (lookup : String → Option (List String)) (fetchRes : FetchOutcome)
    (uuid uploadDir : String) (bodyUrl : Option String) (p : Url)
    (hne : jsTrimS (bodyUrl.getD ("")) ≠ (""))
    (hparse : parseUrl (jsTrimS (bodyUrl.getD (""))) = some p)
    (hproto : p.protocol = ("http:") ∨ p.protocol = ("https:"))
    (hlookup : lookup p.hostname = none ∨ lookup p.hostname = some []) :
    importFromUrl parseUrl lookup fetchRes uuid uploadDir bodyUrl =
      ⟨.unresolvableHost, false, [], []⟩ := by
  have hips : hostnameToIPs lookup p.hostname = [] := by
    rcases hlookup with h | h <;> simp [hostnameToIPs, h]
  have hhttp : isHttpUrl parseUrl (jsTrimS (bodyUrl.getD (""))) = true := by
    unfold isHttpUrl
    rw [hparse]
    rcases hproto with h | h <;> simp [h]
  unfold importFromUrl
  rw [if_neg hne, hhttp]
  simp only [Bool.true_eq_false, if_false, hparse]
  rw [if_pos hips]

theorem claim_C7_witness :
    importFromUrl (fun _ => some ⟨("http:"), ("nohost.example")⟩) (fun _ => none)
      (.response 200 ("<svg></svg>")) ("u") ("uploads")
      (some ("http://nohost.example/x")) =
      ⟨.unresolvableHost, false, [], []⟩ :=
  claim_C7_unresolvable_host_no_fetch _ _ _ _ _ _
    (⟨("http:"), ("nohost.example")⟩) (by decide) rfl (Or.inl rfl) (Or.inl rfl)

/-- Claim C8: for every stored identifier (valid name, file present), the
preview response carries exactly the content-security-policy header — which,
read as a directive list, disallows all script execution and allows no
network fetch beyond same-origin images — together with the
MIME-sniffing-disabled header; and the raw route's content type is the
canonical SVG MIME type, identical for every client-supplied type. -/
theorem claim_C8_response_headers (uploadDir name : String) (fsE : String → Bool)
    (fsR : String → String) (ct ct' : Option String)
    (hname : isValidUploadName name = true)
    (hex : fsE (pathJoin uploadDir name) = true) :
    (servePreview uploadDir fsE fsR name).headers =
      [(("Content-Security-Policy"), previewCsp),
       (("X-Content-Type-Options"), ("nosniff"))] ∧
    specCspDisallowsScriptExecution previewCsp = true ∧
    specCspFetchesOnlySelfImages previewCsp = true ∧
    serveRaw uploadDir fsE fsR ct name = serveRaw uploadDir fsE fsR ct' name ∧
    (serveRaw uploadDir fsE fsR ct name).headers = [(("Content-Type"), svgMimeS)] := by
  have hv : ¬ (isValidUploadName name = false) := by simp [hname]
  have hfe : ¬ (fsE (pathJoin uploadDir name) = false) := by simp [hex]
  refine ⟨?_, by decide, by decide, rfl, ?_⟩
  · unfold servePreview; rw [if_neg hv, if_neg hfe]
  · unfold serveRaw; rw [if_neg hv, if_neg hfe]

theorem claim_C8_witness :
    isValidUploadName ("0123456789abcdef0123456789abcdef0123.svg") = true ∧
    (servePreview ("uploads") (fun _ => true) (fun _ => ("x"))
      ("0123456789abcdef0123456789abcdef0123.svg")).headers =
      [(("Content-Security-Policy"), previewCsp),
       (("X-Content-Type-Options"), ("nosniff"))] ∧
    (serveRaw ("uploads") (fun _ => true) (fun _ => ("x")) none
      ("0123456789abcdef0123456789abcdef0123.svg")).headers =
      [(("Content-Type"), svgMimeS)] :=
  ⟨by decide,
   (claim_C8_response_headers ("uploads") ("0123456789abcdef0123456789abcdef0123.svg")
     (fun _ => true) (fun _ => ("x")) none none (by decide) rfl).1,
   (claim_C8_response_headers ("uploads") ("0123456789abcdef0123456789abcdef0123.svg")
     (fun _ => true) (fun _ => ("x")) none none (by decide) rfl).2.2.2.2⟩

/-- Claim C9: the only paths the import pipeline ever writes are the final
path with `.tmp` appended (and the rename moves exactly that temporary path
onto the final path); the name grammar rejects every name ending in `.tmp`,
so for every temporary-file name both read endpoints return the invalid-name
rejection whose trace shows no filesystem call. -/
theorem claim_C9_tmp_files_not_observable (parseUrl : String → Option Url)
    (lookup : String → Option (List String)) (fetchRes : FetchOutcome)
    (uuid uploadDir stem : String) (bodyUrl : Option String)
    (fsE : String → Bool) (fsR : String → String) (ct : Option String) :
    ((importFromUrl parseUrl lookup fetchRes uuid uploadDir bodyUrl).writes.all
      (fun w => w.1 == pathJoin uploadDir (uuid ++ svgExtS) ++ tmpExtS)) = true ∧
    ((importFromUrl parseUrl lookup fetchRes uuid uploadDir bodyUrl).renames.all
      (fun rn => rn.1 == pathJoin uploadDir (uuid ++ svgExtS) ++ tmpExtS &&
        rn.2 == pathJoin uploadDir (uuid ++ svgExtS))) = true ∧
    isValidUploadName (stem ++ tmpExtS) = false ∧
    serveRaw uploadDir fsE fsR ct (stem ++ tmpExtS) = invalidNameTrace ∧
    servePreview uploadDir fsE fsR (stem ++ tmpExtS) = invalidNameTrace := by
  have hval := isValidUploadName_tmp_false stem
  have hshape := importFromUrl_trace_shape parseUrl lookup fetchRes uuid uploadDir bodyUrl
  refine ⟨?_, ?_, hval, ?_, ?_⟩
  · rcases hshape with ⟨hw, _⟩ | ⟨clean, hw, _⟩ <;> rw [hw] <;> simp
  · rcases hshape with ⟨_, hr⟩ | ⟨clean, _, hr⟩ <;> rw [hr] <;> simp
  · unfold serveRaw; rw [if_pos hval]
  · unfold servePreview; rw [if_pos hval]

/-- Claim C10: sanitization only deletes text: whenever the sanitizer accepts,
the output is no longer than the input, and it equals the input exactly when
none of the five removal patterns matches the input. -/
theorem claim_C10_sanitizer_only_deletes (s out : String)
    (h : sanitizeSvg s = some out) :
    out.length ≤ s.length ∧
    (out = s ↔ (existsMatch scriptP s.toList = false ∧
                existsMatch onAttrP s.toList = false ∧
                existsMatch jsHrefP s.toList = false ∧
                existsMatch frameP s.toList = false ∧
                existsMatch extHrefP s.toList = false)) := by
  unfold sanitizeSvg sanitizeList at h
  by_cases htest : (testDoctype s.toList || testEntity s.toList) = true
  · rw [htest] at h; exact absurd h (by simp)
  · have htest' : (testDoctype s.toList || testEntity s.toList) = false := by
      cases hb : (testDoctype s.toList || testEntity s.toList)
      · rfl
      · exact absurd hb htest
    rw [htest'] at h
    have hout : out = List.asString (scanReplace extHrefP (scanReplace frameP
        (scanReplace jsHrefP (scanReplace onAttrP (scanReplace scriptP s.toList))))) := by
      simpa using h.symm
    have le5 : (scanReplace extHrefP (scanReplace frameP (scanReplace jsHrefP
        (scanReplace onAttrP (scanReplace scriptP s.toList))))).length ≤
        s.toList.length :=
      le_trans (scanReplace_length_le _ _) (le_trans (scanReplace_length_le _ _)
        (le_trans (scanReplace_length_le _ _) (le_trans (scanReplace_length_le _ _)
          (scanReplace_length_le _ _))))
    constructor
    · rw [hout, asString_length, length_toList]
      exact le5
    · constructor
      · intro heq
        have hlen_eq : (scanReplace extHrefP (scanReplace frameP (scanReplace jsHrefP
            (scanReplace onAttrP (scanReplace scriptP s.toList))))).length =
            s.toList.length := by
          have hsl : out.length = s.length := by rw [heq]
          rw [hout, asString_length, length_toList] at hsl
          exact hsl
        have h1 : existsMatch scriptP s.toList = false := by
          cases hb : existsMatch scriptP s.toList
          · rfl
          · exfalso
            have hlt : (scanReplace scriptP s.toList).length < s.toList.length :=
              scanReplace_lt_of_match _ (fun t r hr => scriptP_strict hr) _ hb
            have hrest : (scanReplace extHrefP (scanReplace frameP (scanReplace jsHrefP
                (scanReplace onAttrP (scanReplace scriptP s.toList))))).length ≤
                (scanReplace scriptP s.toList).length :=
              le_trans (scanReplace_length_le _ _) (le_trans (scanReplace_length_le _ _)
                (le_trans (scanReplace_length_le _ _) (scanReplace_length_le _ _)))
            omega
        have hr1 : scanReplace scriptP s.toList = s.toList :=
          scanReplace_of_no_match _ _ h1
        rw [hr1] at hlen_eq
        have h2 : existsMatch onAttrP s.toList = false := by
          cases hb : existsMatch onAttrP s.toList
          · rfl
          · exfalso
            have hlt : (scanReplace onAttrP s.toList).length < s.toList.length :=
              scanReplace_lt_of_match _ (fun t r hr => onAttrP_strict hr) _ hb
            have hrest : (scanReplace extHrefP (scanReplace frameP (scanReplace jsHrefP
                (scanReplace onAttrP s.toList)))).length ≤
                (scanReplace onAttrP s.toList).length :=
              le_trans (scanReplace_length_le _ _) (le_trans (scanReplace_length_le _ _)
                (scanReplace_length_le _ _))
            omega
        have hr2 : scanReplace onAttrP s.toList = s.toList :=
          scanReplace_of_no_match _ _ h2
        rw [hr2] at hlen_eq
        have h3 : existsMatch jsHrefP s.toList = false := by
          cases hb : existsMatch jsHrefP s.toList
          · rfl
          · exfalso
            have hlt : (scanReplace jsHrefP s.toList).length < s.toList.length :=
              scanReplace_lt_of_match _ (fun t r hr => jsHrefP_strict hr) _ hb
            have hrest : (scanReplace extHrefP (scanReplace frameP
                (scanReplace jsHrefP s.toList))).length ≤
                (scanReplace jsHrefP s.toList).length :=
              le_trans (scanReplace_length_le _ _) (scanReplace_length_le _ _)
            omega
        have hr3 : scanReplace jsHrefP s.toList = s.toList :=
          scanReplace_of_no_match _ _ h3
        rw [hr3] at hlen_eq
        have h4 : existsMatch frameP s.toList = false := by
          cases hb : existsMatch frameP s.toList
          · rfl
          · exfalso
            have hlt : (scanReplace frameP s.toList).length < s.toList.length :=
              scanReplace_lt_of_match _ (fun t r hr => frameP_strict hr) _ hb
            have hrest : (scanReplace extHrefP (scanReplace frameP s.toList)).length ≤
                (scanReplace frameP s.toList).length :=
              scanReplace_length_le _ _
            omega
        have hr4 : scanReplace frameP s.toList = s.toList :=
          scanReplace_of_no_match _ _ h4
        rw [hr4] at hlen_eq
        have h5 : existsMatch extHrefP s.toList = false := by
          cases hb : existsMatch extHrefP s.toList
          · rfl
          · exfalso
            have hlt : (scanReplace extHrefP s.toList).length < s.toList.length :=
              scanReplace_lt_of_match _ (fun t r hr => extHrefP_strict hr) _ hb
            omega
        exact ⟨h1, h2, h3, h4, h5⟩
      · rintro ⟨h1, h2, h3, h4, h5⟩
        rw [hout, scanReplace_of_no_match _ _ h1, scanReplace_of_no_match _ _ h2,
            scanReplace_of_no_match _ _ h3, scanReplace_of_no_match _ _ h4,
            scanReplace_of_no_match _ _ h5]
        exact asString_toList s

theorem claim_C10_witness :
    (("<svg></svg>" : String)).length ≤ (("<svg></svg>" : String)).length ∧
    ((("<svg></svg>" : String)) = (("<svg></svg>" : String)) ↔
      (existsMatch scriptP (("<svg></svg>" : String)).toList = false ∧
       existsMatch onAttrP (("<svg></svg>" : String)).toList = false ∧
       existsMatch jsHrefP (("<svg></svg>" : String)).toList = false ∧
       existsMatch frameP (("<svg></svg>" : String)).toList = false ∧
       existsMatch extHrefP (("<svg></svg>" : String)).toList = false)) :=
  claim_C10_sanitizer_only_deletes ("<svg></svg>") ("<svg></svg>") (by decide)

end SvgImport
